import Mathlib

/-!
Verification of the script-block extraction routine
`Data_Generation.write_script_to_file` from
`AI Application/data_preparation/data_generation.py`.

Strings are modelled as `List Char`.  Python's `str.find`, slicing and
`str.strip` are embedded as executable Lean functions, and the single file
side effect is modelled by an explicit `FileState` (the destination file's
contents plus a counter of write operations).
-/

namespace DataGeneration

/-- Python whitespace as used by `str.strip()` with no argument:
space, tab, newline, carriage return, vertical tab, form feed. -/
def pyIsSpace (c : Char) : Bool :=
  c == ' ' || c == '\t' || c == '\n' || c == '\r' || c == '\x0b' || c == '\x0c'

/-- Python `s.strip()`: remove leading and trailing whitespace. -/
def pyStrip (s : List Char) : List Char :=
  ((s.dropWhile pyIsSpace).reverse.dropWhile pyIsSpace).reverse

/-- Scan of positions `i, i+1, ...` looking for the first index at which
`pat` starts; the list argument is the remaining suffix at index `i`. -/
def findIdx (pat : List Char) : List Char → Nat → Option Nat
  | [], i => if pat.isEmpty then some i else none
  | c :: rest, i => if pat.isPrefixOf (c :: rest) then some i else findIdx pat rest (i + 1)

/-- Python `s.find(pat, start)` (with `0 ≤ start ≤ len(s)`): the smallest
index `≥ start` at which `pat` occurs, or `-1` if there is none. -/
def pyFind (s pat : List Char) (start : Nat) : Int :=
  match findIdx pat (s.drop start) start with
  | some i => (i : Int)
  | none => -1

/-- Python slice `s[a:b]` for non-negative bounds (clamping as in Python). -/
def pySlice (s : List Char) (a b : Nat) : List Char :=
  (s.take b).drop a

/-- The seven opening-marker variants in the source's fixed priority order. -/
def markers : List (List Char) :=
  ["```python".data, "Action:".data, "```bash".data, "```markdown".data,
   "```makefile".data, "```text".data, "```".data]

/-- One step of the sequential fallback chain of the source:
if no marker has been found yet (`start_index == -1`), search for the next
variant and record its length; otherwise keep the current result. -/
def tryMarker (s : List Char) (r : Int × Nat) (pat : List Char) : Int × Nat :=
  if r.1 = -1 then (pyFind s pat 0, pat.length) else r

/-- The opening-marker search of `write_script_to_file` (source lines 54-73):
the chain `find("```python") → find("Action:") → ... → find("```")`,
returning the final `(start_index, l1)` pair. -/
def openingSearch (s : List Char) : Int × Nat :=
  markers.foldl (tryMarker s) (-1, 0)

/-- State of the destination file: its contents (`none` when the file does
not exist) and a count of the write operations performed on it. -/
structure FileState where
  contents : Option (List Char)
  writes : Nat
deriving DecidableEq

/-- The fixed diagnostic sentence returned when no opening marker is found. -/
def errorMsg : List Char :=
  "Script content must be enclosed between ```python and ``` tags.".data

/-- `Data_Generation.write_script_to_file` (source lines 49-88), the
operation the spec calls `extract_and_write`: locate an opening marker,
locate the closing fence (falling back to `len-1`), slice, strip, and on
success overwrite the destination file with the stripped content.  Returns
the returned string together with the new file state. -/
def write_script_to_file (script_content : List Char) (fs : FileState) :
    List Char × FileState :=
  let r := openingSearch script_content
  let start_index := r.1
  let l1 := r.2
  let end0 := pyFind script_content "```".data (start_index + (l1 : Int)).toNat
  let end_index := if end0 = -1 then (script_content.length : Int) - 1 else end0
  if start_index = -1 ∨ end_index = -1 then
    (errorMsg, fs)
  else
    let content := pyStrip (pySlice script_content (start_index + (l1 : Int)).toNat end_index.toNat)
    (content, ⟨some content, fs.writes + 1⟩)

/-- `pat` occurs as a literal substring of `s` (anywhere, at any offset). -/
def Occurs (pat s : List Char) : Prop :=
  ∃ u v, s = u ++ pat ++ v

/-- Executable occurrence test, for deciding `Occurs` on concrete inputs. -/
def occursB (pat : List Char) : List Char → Bool
  | [] => pat.isEmpty
  | c :: rest => pat.isPrefixOf (c :: rest) || occursB pat rest

/-! ### Basic facts about `findIdx` and `pyFind` -/

theorem isPrefixOf_nil (pat : List Char) : pat.isPrefixOf [] = pat.isEmpty := by
  cases pat <;> rfl

theorem findIdx_le (pat : List Char) (l : List Char) :
    ∀ (i j : Nat), findIdx pat l i = some j → i ≤ j := by
  induction l with
  | nil =>
    intro i j h
    simp only [findIdx] at h
    split at h
    · exact Option.some_injective _ h ▸ Nat.le_refl i
    · exact absurd h (by simp)
  | cons c rest ih =>
    intro i j h
    simp only [findIdx] at h
    split at h
    · exact Option.some_injective _ h ▸ Nat.le_refl i
    · exact Nat.le_of_succ_le (ih (i + 1) j h)

theorem findIdx_match_at (pat : List Char) (l : List Char) :
    ∀ (i j : Nat), findIdx pat l i = some j →
      pat.isPrefixOf (l.drop (j - i)) = true := by
  induction l with
  | nil =>
    intro i j h
    simp only [findIdx] at h
    split at h
    · rename_i hemp
      simp only [List.drop_nil, isPrefixOf_nil]
      exact hemp
    · exact absurd h (by simp)
  | cons c rest ih =>
    intro i j h
    simp only [findIdx] at h
    split at h
    · rename_i hpre
      obtain rfl : i = j := Option.some_injective _ h
      simpa using hpre
    · have hij : i + 1 ≤ j := findIdx_le pat rest (i + 1) j h
      have := ih (i + 1) j h
      have hdrop : j - i = (j - (i + 1)) + 1 := by omega
      rw [hdrop, List.drop_succ_cons]
      simpa using this

theorem findIdx_some_min (pat : List Char) (l : List Char) :
    ∀ (i j : Nat), findIdx pat l i = some j →
      ∀ k, k < j - i → pat.isPrefixOf (l.drop k) = false := by
  induction l with
  | nil =>
    intro i j h k hk
    simp only [findIdx] at h
    split at h
    · obtain rfl : i = j := Option.some_injective _ h
      omega
    · exact absurd h (by simp)
  | cons c rest ih =>
    intro i j h k hk
    simp only [findIdx] at h
    split at h
    · obtain rfl : i = j := Option.some_injective _ h
      omega
    · rename_i hpre
      have hij : i + 1 ≤ j := findIdx_le pat rest (i + 1) j h
      match k with
      | 0 =>
        simp only [List.drop_zero]
        exact (Bool.not_eq_true _) ▸ hpre
      | k' + 1 =>
        rw [List.drop_succ_cons]
        exact ih (i + 1) j h k' (by omega)

theorem findIdx_none (pat : List Char) (l : List Char) :
    ∀ (i : Nat), findIdx pat l i = none →
      ∀ k, pat.isPrefixOf (l.drop k) = false := by
  induction l with
  | nil =>
    intro i h k
    simp only [findIdx] at h
    split at h
    · exact absurd h (by simp)
    · rename_i hemp
      simp only [List.drop_nil, isPrefixOf_nil]
      exact (Bool.not_eq_true _) ▸ hemp
  | cons c rest ih =>
    intro i h k
    simp only [findIdx] at h
    split at h
    · exact absurd h (by simp)
    · rename_i hpre
      match k with
      | 0 =>
        simp only [List.drop_zero]
        exact (Bool.not_eq_true _) ▸ hpre
      | k' + 1 =>
        rw [List.drop_succ_cons]
        exact ih (i + 1) h k'

theorem pyFind_of_findIdx_none (s pat : List Char) (start : Nat)
    (h : findIdx pat (s.drop start) start = none) : pyFind s pat start = -1 := by
  unfold pyFind
  rw [h]

theorem pyFind_of_findIdx_some (s pat : List Char) (start j : Nat)
    (h : findIdx pat (s.drop start) start = some j) :
    pyFind s pat start = (j : Int) := by
  unfold pyFind
  rw [h]

theorem pyFind_eq_neg_iff (s pat : List Char) (start : Nat) :
    pyFind s pat start = -1 ↔
      ∀ k, start ≤ k → pat.isPrefixOf (s.drop k) = false := by
  cases hfi : findIdx pat (s.drop start) start with
  | none =>
    constructor
    · intro _ k hk
      have := findIdx_none pat (s.drop start) start hfi (k - start)
      rwa [List.drop_drop, Nat.add_sub_cancel' hk] at this
    · intro _
      exact pyFind_of_findIdx_none s pat start hfi
  | some j =>
    have hpf := pyFind_of_findIdx_some s pat start j hfi
    have hj : start ≤ j := findIdx_le pat (s.drop start) start j hfi
    have hp := findIdx_match_at pat (s.drop start) start j hfi
    rw [List.drop_drop, Nat.add_sub_cancel' hj] at hp
    constructor
    · intro h
      rw [hpf] at h
      exact absurd h (by omega)
    · intro h
      exact absurd hp (by simp [h j hj])

theorem pyFind_eq_coe (s pat : List Char) (start j : Nat)
    (h : pyFind s pat start = (j : Int)) :
    start ≤ j ∧ pat.isPrefixOf (s.drop j) = true ∧
      ∀ k, start ≤ k → k < j → pat.isPrefixOf (s.drop k) = false := by
  cases hfi : findIdx pat (s.drop start) start with
  | none =>
    rw [pyFind_of_findIdx_none s pat start hfi] at h
    exact absurd h (by omega)
  | some j' =>
    rw [pyFind_of_findIdx_some s pat start j' hfi] at h
    obtain rfl : j' = j := by exact_mod_cast h
    have hj : start ≤ j' := findIdx_le pat (s.drop start) start j' hfi
    have hp := findIdx_match_at pat (s.drop start) start j' hfi
    rw [List.drop_drop, Nat.add_sub_cancel' hj] at hp
    refine ⟨hj, hp, fun k hk1 hk2 => ?_⟩
    have := findIdx_some_min pat (s.drop start) start j' hfi (k - start) (by omega)
    rwa [List.drop_drop, Nat.add_sub_cancel' hk1] at this

theorem pyFind_cases (s pat : List Char) (start : Nat) :
    pyFind s pat start = -1 ∨ ∃ j : Nat, pyFind s pat start = (j : Int) := by
  unfold pyFind
  cases findIdx pat (s.drop start) start with
  | none => exact Or.inl rfl
  | some j => exact Or.inr ⟨j, rfl⟩

theorem pyFind_eq_of (s pat : List Char) (start j : Nat)
    (hj : start ≤ j) (hpre : pat.isPrefixOf (s.drop j) = true)
    (hmin : ∀ k, start ≤ k → k < j → pat.isPrefixOf (s.drop k) = false) :
    pyFind s pat start = (j : Int) := by
  rcases pyFind_cases s pat start with hneg | ⟨j', hj'⟩
  · exact absurd hpre (by simp [(pyFind_eq_neg_iff s pat start).mp hneg j hj])
  · obtain ⟨hj'1, hj'2, hj'3⟩ := pyFind_eq_coe s pat start j' hj'
    rcases Nat.lt_trichotomy j' j with hlt | heq | hgt
    · exact absurd hj'2 (by simp [hmin j' hj'1 hlt])
    · exact heq ▸ hj'
    · exact absurd hpre (by simp [hj'3 j hj hgt])

/-! ### Occurrence of a literal substring -/

theorem occurs_iff (pat s : List Char) :
    Occurs pat s ↔ ∃ i, pat.isPrefixOf (s.drop i) = true := by
  constructor
  · rintro ⟨u, v, rfl⟩
    refine ⟨u.length, ?_⟩
    rw [List.append_assoc, List.drop_left, List.isPrefixOf_iff_prefix]
    exact List.prefix_append pat v
  · rintro ⟨i, hi⟩
    rw [List.isPrefixOf_iff_prefix] at hi
    obtain ⟨t, ht⟩ := hi
    exact ⟨s.take i, t, by rw [List.append_assoc, ht, List.take_append_drop]⟩

theorem occursB_iff (pat s : List Char) :
    occursB pat s = true ↔ Occurs pat s := by
  rw [occurs_iff]
  induction s with
  | nil =>
    simp only [occursB]
    constructor
    · intro h
      exact ⟨0, by rw [List.drop_nil, isPrefixOf_nil]; exact h⟩
    · rintro ⟨i, hi⟩
      rw [List.drop_nil, isPrefixOf_nil] at hi
      exact hi
  | cons c rest ih =>
    simp only [occursB, Bool.or_eq_true]
    constructor
    · rintro (h | h)
      · exact ⟨0, by simpa using h⟩
      · obtain ⟨i, hi⟩ := ih.mp h
        exact ⟨i + 1, by rwa [List.drop_succ_cons]⟩
    · rintro ⟨i, hi⟩
      match i with
      | 0 => exact Or.inl (by simpa using hi)
      | i' + 1 =>
        rw [List.drop_succ_cons] at hi
        exact Or.inr (ih.mpr ⟨i', hi⟩)

instance (pat s : List Char) : Decidable (Occurs pat s) :=
  decidable_of_iff (occursB pat s = true) (occursB_iff pat s)

theorem pyFind_zero_eq_neg_iff (s pat : List Char) :
    pyFind s pat 0 = -1 ↔ ¬ Occurs pat s := by
  rw [pyFind_eq_neg_iff, occurs_iff]
  push_neg
  constructor
  · intro h i
    simp [h i (Nat.zero_le i)]
  · intro h k _
    exact (Bool.not_eq_true _) ▸ h k

theorem not_occurs_of_neg (s pat : List Char) (start : Nat)
    (h : ¬ Occurs pat s) : pyFind s pat start = -1 := by
  rw [pyFind_eq_neg_iff]
  intro k _
  have := (pyFind_zero_eq_neg_iff s pat).mpr h
  exact (pyFind_eq_neg_iff s pat 0).mp this k (Nat.zero_le k)

/-! ### The opening-marker fallback chain -/

theorem foldl_tryMarker_stay (s : List Char) (r : Int × Nat) (hr : r.1 ≠ -1) :
    ∀ ms : List (List Char), List.foldl (tryMarker s) r ms = r := by
  intro ms
  induction ms with
  | nil => rfl
  | cons m rest ih =>
    rw [List.foldl_cons]
    have : tryMarker s r m = r := by
      unfold tryMarker
      simp [hr]
    rw [this, ih]

theorem foldl_tryMarker_pre (s : List Char) (pre : List (List Char))
    (hpre : ∀ m ∈ pre, ¬ Occurs m s) :
    ∀ n : Nat, ∃ n' : Nat, List.foldl (tryMarker s) (-1, n) pre = (-1, n') := by
  induction pre with
  | nil => exact fun n => ⟨n, rfl⟩
  | cons m rest ih =>
    intro n
    rw [List.foldl_cons]
    have hm : pyFind s m 0 = -1 :=
      (pyFind_zero_eq_neg_iff s m).mpr (hpre m (List.mem_cons_self m rest))
    have : tryMarker s (-1, n) m = (-1, m.length) := by
      unfold tryMarker
      simp [hm]
    rw [this]
    exact ih (fun m' hm' => hpre m' (List.mem_cons_of_mem m hm')) m.length

theorem foldl_tryMarker_cases (s : List Char) :
    ∀ (ms : List (List Char)) (r : Int × Nat),
      List.foldl (tryMarker s) r ms = r ∨
        ∃ w ∈ ms, List.foldl (tryMarker s) r ms = (pyFind s w 0, w.length) := by
  intro ms
  induction ms with
  | nil => exact fun r => Or.inl rfl
  | cons m rest ih =>
    intro r
    rw [List.foldl_cons]
    by_cases hr : r.1 = -1
    · have hstep : tryMarker s r m = (pyFind s m 0, m.length) := by
        unfold tryMarker
        simp [hr]
      rw [hstep]
      rcases ih (pyFind s m 0, m.length) with h | ⟨w, hw, h⟩
      · exact Or.inr ⟨m, List.mem_cons_self m rest, h⟩
      · exact Or.inr ⟨w, List.mem_cons_of_mem m hw, h⟩
    · have hstep : tryMarker s r m = r := by
        unfold tryMarker
        simp [hr]
      rw [hstep]
      rcases ih r with h | ⟨w, hw, h⟩
      · exact Or.inl h
      · exact Or.inr ⟨w, List.mem_cons_of_mem m hw, h⟩

theorem openingSearch_first (s w : List Char) (pre post : List (List Char))
    (hsplit : markers = pre ++ w :: post)
    (hpre : ∀ m ∈ pre, ¬ Occurs m s) (hw : Occurs w s) :
    openingSearch s = (pyFind s w 0, w.length) := by
  unfold openingSearch
  rw [hsplit, List.foldl_append]
  obtain ⟨n', hn⟩ := foldl_tryMarker_pre s pre hpre 0
  rw [hn, List.foldl_cons]
  have hfw : pyFind s w 0 ≠ -1 := by
    intro hc
    exact (pyFind_zero_eq_neg_iff s w).mp hc hw
  have hstep : tryMarker s (-1, n') w = (pyFind s w 0, w.length) := by
    unfold tryMarker
    simp
  rw [hstep]
  exact foldl_tryMarker_stay s _ hfw post

theorem exists_first_marker (s : List Char) (ms : List (List Char))
    (h : ∃ m ∈ ms, Occurs m s) :
    ∃ pre w post, ms = pre ++ w :: post ∧
      (∀ m ∈ pre, ¬ Occurs m s) ∧ Occurs w s := by
  induction ms with
  | nil => simp at h
  | cons m rest ih =>
    by_cases hm : Occurs m s
    · exact ⟨[], m, rest, rfl, by simp, hm⟩
    · obtain ⟨m', hm', hocc⟩ := h
      rcases List.mem_cons.mp hm' with rfl | hmem
      · exact absurd hocc hm
      · obtain ⟨pre, w, post, heq, hpre, hw⟩ := ih ⟨m', hmem, hocc⟩
        refine ⟨m :: pre, w, post, by rw [heq]; rfl, ?_, hw⟩
        intro x hx
        rcases List.mem_cons.mp hx with rfl | hx'
        · exact hm
        · exact hpre x hx'

/-! ### Structural facts about markers, slices and stripping -/

theorem markers_ne_nil : ∀ m ∈ markers, m ≠ [] := by decide

theorem prefix_lt_length (pat s : List Char) (j : Nat) (hpat : pat ≠ [])
    (hp : pat.isPrefixOf (s.drop j) = true) : j < s.length := by
  rw [List.isPrefixOf_iff_prefix] at hp
  obtain ⟨t, ht⟩ := hp
  by_contra hcon
  push_neg at hcon
  rw [List.drop_eq_nil_of_le hcon] at ht
  exact hpat (List.append_eq_nil.mp ht).1

theorem openingSearch_found_pos (s : List Char) (st l1 : Nat)
    (h : openingSearch s = ((st : Int), l1)) : st < s.length := by
  unfold openingSearch at h
  rcases foldl_tryMarker_cases s markers (-1, 0) with h0 | ⟨w, hw, hfold⟩
  · rw [h] at h0
    injection h0 with h1 h2
    omega
  · rw [h] at hfold
    injection hfold with h1 h2
    obtain ⟨-, hp, -⟩ := pyFind_eq_coe s w 0 st h1.symm
    exact prefix_lt_length w s st (markers_ne_nil w hw) hp

theorem prefix_of_prefix_take (pat t : List Char) (m : Nat)
    (h : pat.isPrefixOf (t.take m) = true) : pat.isPrefixOf t = true := by
  rw [List.isPrefixOf_iff_prefix] at h ⊢
  exact h.trans (List.take_prefix m t)

theorem pos_of_prefix_take (pat t : List Char) (m : Nat) (hpat : pat ≠ [])
    (h : pat.isPrefixOf (t.take m) = true) : 0 < m := by
  rcases Nat.eq_zero_or_pos m with rfl | hm
  · rw [List.take_zero, isPrefixOf_nil] at h
    exact absurd (List.isEmpty_iff.mp h) hpat
  · exact hm

theorem slice_no_occurs (s pat : List Char) (hpat : pat ≠ []) (a e : Nat)
    (hmin : ∀ k, a ≤ k → k < e → pat.isPrefixOf (s.drop k) = false) :
    ¬ Occurs pat (pySlice s a e) := by
  rintro ⟨u, v, huv⟩
  have h1 : pat.isPrefixOf ((pySlice s a e).drop u.length) = true := by
    rw [huv, List.append_assoc, List.drop_left, List.isPrefixOf_iff_prefix]
    exact List.prefix_append pat v
  rw [pySlice, List.drop_drop, List.drop_take] at h1
  have hp : pat.isPrefixOf (s.drop (a + u.length)) = true :=
    prefix_of_prefix_take _ _ _ h1
  have hlt : 0 < e - (a + u.length) := pos_of_prefix_take _ _ _ hpat h1
  have := hmin (a + u.length) (Nat.le_add_right a u.length) (by omega)
  rw [this] at hp
  exact absurd hp (by simp)

theorem pyStrip_within (s : List Char) : ∃ u v, s = u ++ pyStrip s ++ v := by
  obtain ⟨u, hu⟩ := List.dropWhile_suffix (p := pyIsSpace) (l := s)
  obtain ⟨z, hz⟩ :=
    List.dropWhile_suffix (p := pyIsSpace) (l := (s.dropWhile pyIsSpace).reverse)
  refine ⟨u, z.reverse, ?_⟩
  have hmid : s.dropWhile pyIsSpace = pyStrip s ++ z.reverse := by
    show s.dropWhile pyIsSpace =
      ((s.dropWhile pyIsSpace).reverse.dropWhile pyIsSpace).reverse ++ z.reverse
    rw [← List.reverse_append, hz, List.reverse_reverse]
  rw [List.append_assoc, ← hmid, hu]

theorem not_occurs_pyStrip (pat t : List Char) (h : ¬ Occurs pat t) :
    ¬ Occurs pat (pyStrip t) := by
  rintro ⟨u, v, huv⟩
  obtain ⟨x, y, hxy⟩ := pyStrip_within t
  refine h ⟨x ++ u, v ++ y, ?_⟩
  rw [hxy, huv]
  simp [List.append_assoc]

/-! ### Evaluation of `write_script_to_file` in the three regimes -/

theorem openingSearch_none (s : List Char) (h : ∀ m ∈ markers, ¬ Occurs m s) :
    openingSearch s = (-1, 3) := by
  have h1 : pyFind s "```python".data 0 = -1 :=
    (pyFind_zero_eq_neg_iff s _).mpr (h _ (by simp [markers]))
  have h2 : pyFind s "Action:".data 0 = -1 :=
    (pyFind_zero_eq_neg_iff s _).mpr (h _ (by simp [markers]))
  have h3 : pyFind s "```bash".data 0 = -1 :=
    (pyFind_zero_eq_neg_iff s _).mpr (h _ (by simp [markers]))
  have h4 : pyFind s "```markdown".data 0 = -1 :=
    (pyFind_zero_eq_neg_iff s _).mpr (h _ (by simp [markers]))
  have h5 : pyFind s "```makefile".data 0 = -1 :=
    (pyFind_zero_eq_neg_iff s _).mpr (h _ (by simp [markers]))
  have h6 : pyFind s "```text".data 0 = -1 :=
    (pyFind_zero_eq_neg_iff s _).mpr (h _ (by simp [markers]))
  have h7 : pyFind s "```".data 0 = -1 :=
    (pyFind_zero_eq_neg_iff s _).mpr (h _ (by simp [markers]))
  unfold openingSearch markers tryMarker
  simp only [List.foldl_cons, List.foldl_nil, h1, h2, h3, h4, h5, h6, h7]
  norm_num

theorem write_script_none (s : List Char) (fs : FileState)
    (h : ∀ m ∈ markers, ¬ Occurs m s) :
    write_script_to_file s fs = (errorMsg, fs) := by
  simp only [write_script_to_file, openingSearch_none s h]
  norm_num

theorem write_script_close_found (s : List Char) (fs : FileState) (st l1 e : Nat)
    (h : openingSearch s = ((st : Int), l1))
    (he : pyFind s "```".data (st + l1) = (e : Int)) :
    write_script_to_file s fs =
      (pyStrip (pySlice s (st + l1) e),
       ⟨some (pyStrip (pySlice s (st + l1) e)), fs.writes + 1⟩) := by
  have h1 : ((st : Int) + (l1 : Int)).toNat = st + l1 := by omega
  have hst : ¬((st : Int) = -1) := by omega
  have he1 : ¬((e : Int) = -1) := by omega
  simp only [write_script_to_file, h, h1, he]
  simp [hst, he1]

theorem write_script_close_none (s : List Char) (fs : FileState) (st l1 : Nat)
    (h : openingSearch s = ((st : Int), l1))
    (he : pyFind s "```".data (st + l1) = -1) :
    write_script_to_file s fs =
      (pyStrip (pySlice s (st + l1) (s.length - 1)),
       ⟨some (pyStrip (pySlice s (st + l1) (s.length - 1))), fs.writes + 1⟩) := by
  have hpos : st < s.length := openingSearch_found_pos s st l1 h
  have h1 : ((st : Int) + (l1 : Int)).toNat = st + l1 := by omega
  have hst : ¬((st : Int) = -1) := by omega
  have hend : ¬((s.length : Int) - 1 = -1) := by omega
  have h3 : ((s.length : Int) - 1).toNat = s.length - 1 := by omega
  simp only [write_script_to_file, h, h1, he]
  simp [hst, hend, h3]

theorem write_script_found_content (s : List Char) (fs : FileState) (st l1 : Nat)
    (h : openingSearch s = ((st : Int), l1)) :
    ∃ c, write_script_to_file s fs = (c, ⟨some c, fs.writes + 1⟩) ∧
      ¬ Occurs "```".data c := by
  have hbt : ("```".data : List Char) ≠ [] := by decide
  rcases pyFind_cases s "```".data (st + l1) with hneg | ⟨e, he⟩
  · rw [write_script_close_none s fs st l1 h hneg]
    refine ⟨_, rfl,
      not_occurs_pyStrip _ _ (slice_no_occurs s _ hbt (st + l1) (s.length - 1) ?_)⟩
    intro k hk1 _
    exact (pyFind_eq_neg_iff s _ (st + l1)).mp hneg k hk1
  · rw [write_script_close_found s fs st l1 e h he]
    obtain ⟨-, -, hmin⟩ := pyFind_eq_coe s _ (st + l1) e he
    exact ⟨_, rfl, not_occurs_pyStrip _ _ (slice_no_occurs s _ hbt (st + l1) e hmin)⟩

theorem openingSearch_found_of_occurs (s : List Char)
    (hocc : ∃ m ∈ markers, Occurs m s) :
    ∃ st l1 : Nat, openingSearch s = ((st : Int), l1) := by
  obtain ⟨pre, w, post, hsplit, hpre, hw⟩ := exists_first_marker s markers hocc
  have hfold := openingSearch_first s w pre post hsplit hpre hw
  have hfw : pyFind s w 0 ≠ -1 := fun hc => (pyFind_zero_eq_neg_iff s w).mp hc hw
  rcases pyFind_cases s w 0 with hc | ⟨j, hj⟩
  · exact absurd hc hfw
  · exact ⟨j, w.length, by rw [hfold, hj]⟩

theorem occurs_of_occurs_append (p q s : List Char) (h : Occurs (p ++ q) s) :
    Occurs p s := by
  obtain ⟨u, v, huv⟩ := h
  refine ⟨u, q ++ v, ?_⟩
  rw [huv]
  simp [List.append_assoc]

theorem errorMsg_occurs : Occurs "```".data errorMsg := by decide

/-- C3: for every raw_text in which none of the seven opening markers occurs
(equivalently: neither the triple-backtick fence nor the Action: label occurs
as a substring), the call returns exactly the fixed failure sentence and
performs no file write; and the failure sentence is returned only in that
case. -/
theorem failure_iff_no_marker (s : List Char) (fs : FileState) :
    ((write_script_to_file s fs).1 = errorMsg ↔ ∀ m ∈ markers, ¬ Occurs m s) ∧
    ((∀ m ∈ markers, ¬ Occurs m s) → (write_script_to_file s fs).2 = fs) ∧
    ((¬ Occurs "```".data s ∧ ¬ Occurs "Action:".data s) ↔
      ∀ m ∈ markers, ¬ Occurs m s) := by
  refine ⟨⟨?_, ?_⟩, ?_, ?_, ?_⟩
  · intro hres
    by_contra hnot
    push_neg at hnot
    obtain ⟨m, hm, hocc⟩ := hnot
    obtain ⟨st, l1, hfound⟩ := openingSearch_found_of_occurs s ⟨m, hm, hocc⟩
    obtain ⟨c, hc, hnocc⟩ := write_script_found_content s fs st l1 hfound
    rw [hc] at hres
    simp only at hres
    rw [hres] at hnocc
    exact hnocc errorMsg_occurs
  · intro hno
    rw [write_script_none s fs hno]
  · intro hno
    rw [write_script_none s fs hno]
  · rintro ⟨hbt, hact⟩ m hm
    simp only [markers, List.mem_cons, List.not_mem_nil, or_false] at hm
    rcases hm with rfl | rfl | rfl | rfl | rfl | rfl | rfl
    · intro hocc
      exact hbt (occurs_of_occurs_append "```".data "python".data s
        (by rw [show "```".data ++ "python".data = "```python".data from rfl]; exact hocc))
    · exact hact
    · intro hocc
      exact hbt (occurs_of_occurs_append "```".data "bash".data s
        (by rw [show "```".data ++ "bash".data = "```bash".data from rfl]; exact hocc))
    · intro hocc
      exact hbt (occurs_of_occurs_append "```".data "markdown".data s
        (by rw [show "```".data ++ "markdown".data = "```markdown".data from rfl]; exact hocc))
    · intro hocc
      exact hbt (occurs_of_occurs_append "```".data "makefile".data s
        (by rw [show "```".data ++ "makefile".data = "```makefile".data from rfl]; exact hocc))
    · intro hocc
      exact hbt (occurs_of_occurs_append "```".data "text".data s
        (by rw [show "```".data ++ "text".data = "```text".data from rfl]; exact hocc))
    · exact hbt
  · intro h
    exact ⟨h "```".data (by simp [markers]), h "Action:".data (by simp [markers])⟩

/-- C3 witness: a concrete marker-free input returns the failure sentence and
leaves the file state untouched. -/
theorem failure_iff_no_marker_instance :
    (write_script_to_file "no markers at all".data ⟨some "old".data, 5⟩).1 = errorMsg ∧
    (write_script_to_file "no markers at all".data ⟨some "old".data, 5⟩).2 =
      ⟨some "old".data, 5⟩ :=
  ⟨(failure_iff_no_marker "no markers at all".data ⟨some "old".data, 5⟩).1.mpr (by decide),
   (failure_iff_no_marker "no markers at all".data ⟨some "old".data, 5⟩).2.1 (by decide)⟩

/-- C1: for every raw_text containing at least one of the seven opening
markers, the winning marker is chosen by fixed list order: the first variant
in the order given by `markers` whose literal text occurs anywhere in the
text determines both start_index (its smallest occurrence offset) and
marker_length (its own length), regardless of where the other markers
occur. -/
theorem openingSearch_list_order_wins (s w : List Char)
    (pre post : List (List Char))
    (hsplit : markers = pre ++ w :: post)
    (hpre : ∀ m ∈ pre, ¬ Occurs m s) (hw : Occurs w s) :
    ∃ i : Nat, openingSearch s = ((i : Int), w.length) ∧
      w.isPrefixOf (s.drop i) = true ∧
      ∀ k, k < i → w.isPrefixOf (s.drop k) = false := by
  have hfold := openingSearch_first s w pre post hsplit hpre hw
  have hfw : pyFind s w 0 ≠ -1 := fun hc => (pyFind_zero_eq_neg_iff s w).mp hc hw
  rcases pyFind_cases s w 0 with hc | ⟨j, hj⟩
  · exact absurd hc hfw
  · obtain ⟨-, hp, hmin⟩ := pyFind_eq_coe s w 0 j hj
    exact ⟨j, by rw [hfold, hj], hp, fun k hk => hmin k (Nat.zero_le k) hk⟩

/-- C1 witness: on "Action: hi" the first list-order variant that occurs is
"Action:", and it determines start_index 0 and marker_length 7. -/
theorem openingSearch_list_order_wins_instance :
    Occurs "Action:".data "Action: hi".data ∧
    (∃ i : Nat, openingSearch "Action: hi".data = ((i : Int), ("Action:".data).length) ∧
      ("Action:".data).isPrefixOf (("Action: hi".data).drop i) = true ∧
      ∀ k, k < i → ("Action:".data).isPrefixOf (("Action: hi".data).drop k) = false) :=
  ⟨by decide,
   openingSearch_list_order_wins "Action: hi".data "Action:".data
     ["```python".data]
     ["```bash".data, "```markdown".data, "```makefile".data, "```text".data, "```".data]
     (by rfl) (by decide) (by decide)⟩

/-- C2 counterexample: in "Action: ```python x ```" the marker "Action:"
occurs at offset 0 (the smallest offset of any marker) and "```python"
occurs at offset 8, yet the opening search returns start_index 8 with
marker_length 9 — not the pair (0, 7) that the smallest-offset rule of the
claim requires. -/
theorem smallest_offset_rule_refuted :
    ("Action:".data).isPrefixOf (("Action: ```python x ```".data).drop 0) = true ∧
    ("```python".data).isPrefixOf (("Action: ```python x ```".data).drop 8) = true ∧
    openingSearch "Action: ```python x ```".data = (8, 9) ∧
    ¬(openingSearch "Action: ```python x ```".data =
        (0, ("Action:".data).length)) := by decide

/-- C2 amended: when two or more of the seven markers occur (at whatever
offsets), the winner is still the first variant in list order whose literal
text occurs anywhere; the offsets of the other occurring markers are
irrelevant, so list order is not merely a tie-break for equal offsets. -/
theorem list_order_wins_despite_earlier_offset (s w v : List Char)
    (pre post : List (List Char))
    (hsplit : markers = pre ++ w :: post)
    (hpre : ∀ m ∈ pre, ¬ Occurs m s) (hw : Occurs w s)
    (_hv : v ∈ markers) (_hvocc : Occurs v s) :
    ∃ i : Nat, openingSearch s = ((i : Int), w.length) ∧
      w.isPrefixOf (s.drop i) = true ∧
      ∀ k, k < i → w.isPrefixOf (s.drop k) = false := by
  have hfold := openingSearch_first s w pre post hsplit hpre hw
  have hfw : pyFind s w 0 ≠ -1 := fun hc => (pyFind_zero_eq_neg_iff s w).mp hc hw
  rcases pyFind_cases s w 0 with hc | ⟨j, hj⟩
  · exact absurd hc hfw
  · obtain ⟨-, hp, hmin⟩ := pyFind_eq_coe s w 0 j hj
    exact ⟨j, by rw [hfold, hj], hp, fun k hk => hmin k (Nat.zero_le k) hk⟩

/-- C2 amended witness: on "Action: ```python x ```" both "```python" and
"Action:" occur, "Action:" at the smaller offset, yet "```python" (first in
list order) wins with its first occurrence offset 8 and length 9. -/
theorem list_order_wins_despite_earlier_offset_instance :
    Occurs "```python".data "Action: ```python x ```".data ∧
    Occurs "Action:".data "Action: ```python x ```".data ∧
    (∃ i : Nat, openingSearch "Action: ```python x ```".data =
        ((i : Int), ("```python".data).length) ∧
      ("```python".data).isPrefixOf (("Action: ```python x ```".data).drop i) = true ∧
      ∀ k, k < i →
        ("```python".data).isPrefixOf (("Action: ```python x ```".data).drop k) = false) :=
  ⟨by decide, by decide,
   list_order_wins_despite_earlier_offset "Action: ```python x ```".data
     "```python".data "Action:".data []
     ["Action:".data, "```bash".data, "```markdown".data, "```makefile".data,
      "```text".data, "```".data]
     (by rfl) (by simp) (by decide) (by decide) (by decide)⟩

/-- C4 counterexample: on "```pythonabc" the opening marker is found at 0
with length 9 and no closing fence occurs after it, but the call returns
"ab", not the trimmed full suffix "abc" — the final character is dropped
before trimming, so "consumed to end-of-text including the final character"
is false. -/
theorem consume_to_end_refuted :
    openingSearch "```pythonabc".data = (0, 9) ∧
    ¬ Occurs "```".data (("```pythonabc".data).drop 9) ∧
    (write_script_to_file "```pythonabc".data ⟨none, 0⟩).1 = "ab".data ∧
    pyStrip (("```pythonabc".data).drop 9) = "abc".data ∧
    ("ab".data : List Char) ≠ "abc".data := by decide

/-- C4 amended: for every raw_text containing an opening marker but no
closing fence at or after start_index + marker_length, the call does not
fail: the closing offset is treated as length - 1, so the result equals the
whitespace-trimmed remainder of raw_text after the opening marker with its
final character dropped (not the full suffix), and that content is written
to the file. -/
theorem missing_close_consumes_to_penultimate (s : List Char) (fs : FileState)
    (st l1 : Nat) (h : openingSearch s = ((st : Int), l1))
    (hno : ¬ Occurs "```".data (s.drop (st + l1))) :
    write_script_to_file s fs =
      (pyStrip ((s.drop (st + l1)).dropLast),
       ⟨some (pyStrip ((s.drop (st + l1)).dropLast)), fs.writes + 1⟩) := by
  have hno' : ∀ k, st + l1 ≤ k → ("```".data).isPrefixOf (s.drop k) = false := by
    intro k hk
    by_contra hcon
    rw [Bool.not_eq_false] at hcon
    apply hno
    rw [occurs_iff]
    exact ⟨k - (st + l1), by rwa [List.drop_drop, Nat.add_sub_cancel' hk]⟩
  have hneg : pyFind s "```".data (st + l1) = -1 :=
    (pyFind_eq_neg_iff s _ (st + l1)).mpr hno'
  rw [write_script_close_none s fs st l1 h hneg]
  have hsl : pySlice s (st + l1) (s.length - 1) = (s.drop (st + l1)).dropLast := by
    rw [pySlice, List.drop_take, List.dropLast_eq_take, List.length_drop]
    congr 1
    omega
  rw [hsl]

/-- C4 amended witness: on "```pythonabc" (opening marker at 0, no closing
fence) the call returns the trimmed suffix with the final character
dropped. -/
theorem missing_close_consumes_to_penultimate_instance :
    ¬ Occurs "```".data (("```pythonabc".data).drop (0 + 9)) ∧
    write_script_to_file "```pythonabc".data ⟨none, 0⟩ =
      (pyStrip ((("```pythonabc".data).drop (0 + 9)).dropLast),
       ⟨some (pyStrip ((("```pythonabc".data).drop (0 + 9)).dropLast)), 1⟩) :=
  ⟨by decide,
   missing_close_consumes_to_penultimate "```pythonabc".data ⟨none, 0⟩ 0 9
     (by decide) (by decide)⟩

/-- C5: on raw_text "prefix ```python\nprint(1)\n``` suffix" (for any prior
file state) the call returns "print(1)" and the destination file afterwards
contains exactly "print(1)". -/
theorem example_fenced_python_block (fs : FileState) :
    write_script_to_file "prefix ```python\nprint(1)\n``` suffix".data fs =
      ("print(1)".data, ⟨some "print(1)".data, fs.writes + 1⟩) := by
  have h := write_script_close_found "prefix ```python\nprint(1)\n``` suffix".data
    fs 7 9 26 (by decide) (by decide)
  rw [h]
  have hc : pyStrip (pySlice "prefix ```python\nprint(1)\n``` suffix".data (7 + 9) 26) =
      "print(1)".data := by decide
  rw [hc]

/-- C6: on every successful call whose closing fence exists, the result is
the substring of raw_text strictly between the end of the chosen opening
marker and the start of the first closing fence after it, stripped of
leading and trailing whitespace; the same stripped string is written to the
file, so one fence pair determines the whole outcome. -/
theorem content_between_marker_and_close (s : List Char) (fs : FileState)
    (st l1 e : Nat)
    (h : openingSearch s = ((st : Int), l1))
    (hge : st + l1 ≤ e)
    (he : ("```".data).isPrefixOf (s.drop e) = true)
    (hmin : ∀ k, k < e → st + l1 ≤ k → ("```".data).isPrefixOf (s.drop k) = false) :
    (write_script_to_file s fs).1 =
      pyStrip ((s.drop (st + l1)).take (e - (st + l1))) ∧
    (write_script_to_file s fs).2.contents = some ((write_script_to_file s fs).1) ∧
    (write_script_to_file s fs).2.writes = fs.writes + 1 := by
  have hfind : pyFind s "```".data (st + l1) = (e : Int) :=
    pyFind_eq_of s "```".data (st + l1) e hge he (fun k hk1 hk2 => hmin k hk2 hk1)
  rw [write_script_close_found s fs st l1 e h hfind]
  refine ⟨?_, rfl, rfl⟩
  simp only [pySlice, List.drop_take]

/-- C6 witness: on "```python a ```" the opening marker ends at 9, the
closing fence starts at 12, and the result is the stripped in-between
substring " a ", i.e. "a", also written to the file. -/
theorem content_between_marker_and_close_instance :
    ("```".data).isPrefixOf (("```python a ```".data).drop 12) = true ∧
    ((write_script_to_file "```python a ```".data ⟨none, 0⟩).1 =
        pyStrip ((("```python a ```".data).drop (0 + 9)).take (12 - (0 + 9))) ∧
      (write_script_to_file "```python a ```".data ⟨none, 0⟩).2.contents =
        some ((write_script_to_file "```python a ```".data ⟨none, 0⟩).1) ∧
      (write_script_to_file "```python a ```".data ⟨none, 0⟩).2.writes = 1) :=
  ⟨by decide,
   content_between_marker_and_close "```python a ```".data ⟨none, 0⟩ 0 9 12
     (by decide) (by decide) (by decide) (by decide)⟩

/-- C7: on every successful call (some opening marker occurs) exactly one
file write occurs, the destination is overwritten with exactly the string
the call returns; on failure (no marker occurs) no write occurs and the
file state is unchanged. -/
theorem single_write_on_success (s : List Char) (fs : FileState) :
    ((∃ m ∈ markers, Occurs m s) →
      (write_script_to_file s fs).2.writes = fs.writes + 1 ∧
      (write_script_to_file s fs).2.contents = some ((write_script_to_file s fs).1)) ∧
    ((∀ m ∈ markers, ¬ Occurs m s) → (write_script_to_file s fs).2 = fs) := by
  constructor
  · intro hocc
    obtain ⟨st, l1, hfound⟩ := openingSearch_found_of_occurs s hocc
    obtain ⟨c, hc, -⟩ := write_script_found_content s fs st l1 hfound
    rw [hc]
    exact ⟨rfl, rfl⟩
  · intro hno
    rw [write_script_none s fs hno]

/-- C7 witness: a successful call performs one write whose content is the
returned string; a failing call leaves a pre-existing file untouched. -/
theorem single_write_on_success_instance :
    ((write_script_to_file "```python x ```".data ⟨none, 0⟩).2.writes = 1 ∧
     (write_script_to_file "```python x ```".data ⟨none, 0⟩).2.contents =
       some ((write_script_to_file "```python x ```".data ⟨none, 0⟩).1)) ∧
    (write_script_to_file "plain text".data ⟨some "keep".data, 3⟩).2 =
      ⟨some "keep".data, 3⟩ :=
  ⟨(single_write_on_success "```python x ```".data ⟨none, 0⟩).1 (by decide),
   (single_write_on_success "plain text".data ⟨some "keep".data, 3⟩).2 (by decide)⟩

/-- C8: calling the routine twice with identical raw_text on the same
destination yields the same returned string both times and leaves the file
with the same contents both times (the second call overwrites rather than
appends). -/
theorem extract_twice_idempotent (s : List Char) (fs : FileState) :
    (write_script_to_file s (write_script_to_file s fs).2).1 =
      (write_script_to_file s fs).1 ∧
    (write_script_to_file s (write_script_to_file s fs).2).2.contents =
      (write_script_to_file s fs).2.contents := by
  by_cases h : ∀ m ∈ markers, ¬ Occurs m s
  · rw [write_script_none s fs h, write_script_none s _ h]
    exact ⟨rfl, rfl⟩
  · push_neg at h
    obtain ⟨st, l1, hfound⟩ := openingSearch_found_of_occurs s h
    rcases pyFind_cases s "```".data (st + l1) with hneg | ⟨e, he⟩
    · rw [write_script_close_none s fs st l1 hfound hneg,
          write_script_close_none s _ st l1 hfound hneg]
      exact ⟨rfl, rfl⟩
    · rw [write_script_close_found s fs st l1 e hfound he,
          write_script_close_found s _ st l1 e hfound he]
      exact ⟨rfl, rfl⟩

/-- C9: every call terminates with a returned string and no fault: the
outcome is either the failure sentence with the file state untouched, or
the returned content with exactly one complete write of exactly that
content — no retries and no partial writes. -/
theorem no_fault_single_outcome (s : List Char) (fs : FileState) :
    write_script_to_file s fs = (errorMsg, fs) ∨
    write_script_to_file s fs =
      ((write_script_to_file s fs).1,
       ⟨some ((write_script_to_file s fs).1), fs.writes + 1⟩) := by
  by_cases h : ∀ m ∈ markers, ¬ Occurs m s
  · exact Or.inl (write_script_none s fs h)
  · push_neg at h
    obtain ⟨st, l1, hfound⟩ := openingSearch_found_of_occurs s h
    obtain ⟨c, hc, -⟩ := write_script_found_content s fs st l1 hfound
    right
    rw [hc]

/-- C10: when a closing fence begins exactly at start_index + marker_length,
the closing search (which starts at, not strictly after, the end of the
opening marker) finds it there, the call succeeds, returns the empty string
and truncates the destination file to empty. -/
theorem close_at_marker_end_empty_content (s : List Char) (fs : FileState)
    (st l1 : Nat) (h : openingSearch s = ((st : Int), l1))
    (hclose : ("```".data).isPrefixOf (s.drop (st + l1)) = true) :
    write_script_to_file s fs = ([], ⟨some [], fs.writes + 1⟩) := by
  have hfind : pyFind s "```".data (st + l1) = ((st + l1 : Nat) : Int) :=
    pyFind_eq_of s "```".data (st + l1) (st + l1) (Nat.le_refl _) hclose
      (fun k hk1 hk2 => absurd hk1 (by omega))
  rw [write_script_close_found s fs st l1 (st + l1) h hfind]
  have hsl : pySlice s (st + l1) (st + l1) = ([] : List Char) := by
    rw [pySlice, List.drop_take]
    simp
  rw [hsl]
  rfl

/-- C10 witness: on "```python```" the closing fence starts exactly at
offset 9 = start_index + marker_length; the call returns "" and truncates a
previously non-empty file to empty. -/
theorem close_at_marker_end_empty_content_instance :
    ("```".data).isPrefixOf (("```python```".data).drop (0 + 9)) = true ∧
    write_script_to_file "```python```".data ⟨some "x".data, 0⟩ =
      ([], ⟨some [], 1⟩) :=
  ⟨by decide,
   close_at_marker_end_empty_content "```python```".data ⟨some "x".data, 0⟩ 0 9
     (by decide) (by decide)⟩

end DataGeneration
